import Mathlib

/-!
Shallow embedding of the picture-pick server (src/app.js, the express router
part).  A `Project` mirrors the JS project object, an `AppData` mirrors the
in-memory `appData` document, and each route handler is embedded as a pure
state-transforming function.  `getImagesFromDir` is an external collaborator
(it reads the filesystem), so its result is passed in as an explicit
`fsImages : List String` parameter wherever the code calls it.
-/

namespace PicturePick

/-- A project record, mirroring the JS object
`{ id, name, filePath, xSelected, currentRound, roundSelections, lastFileName }`
(app.js line 43 and the default at lines 55-63).  `roundSelections` is the JS
object used as a finite map from a round number to the ordered selection list
of that round; `none` models an absent key. -/
structure Project where
  id : String
  name : String
  filePath : String
  xSelected : String
  currentRound : Int
  roundSelections : Int → Option (List String)
  lastFileName : String

/-- The in-memory application document `appData` (app.js lines 64-67). -/
structure AppData where
  activeProjectId : String
  projects : List Project

/-- JS assignment `m[k] = v` on the `roundSelections` object. -/
def setRound (m : Int → Option (List String)) (k : Int) (v : List String) :
    Int → Option (List String) :=
  fun j => if j = k then some v else m j

/-- The default project built by `loadData()` when no data file exists
(app.js lines 55-63). -/
def defaultProject : Project :=
  { id := "default"
    name := "默认项目"
    filePath := "C:\\Users\\admin\\Documents\\MuMu共享文件夹\\Pictures\\Telegram"
    xSelected := "X选项内容"
    currentRound := 1
    roundSelections := fun _ => none
    lastFileName := "" }

/-- The default application document returned by `loadData()` when the data
file is absent (app.js lines 64-67). -/
def initData : AppData :=
  { activeProjectId := "default", projects := [defaultProject] }

/-- `getActiveProject()` (app.js lines 95-104): look the active project up by
id; when the id dangles and the project list is non-empty, repoint
`activeProjectId` at the first project.  Returns the resolved project (if
any) together with the possibly repaired document. -/
def getActiveProject (d : AppData) : Option Project × AppData :=
  match d.projects.find? (fun p => p.id = d.activeProjectId) with
  | some p => (some p, d)
  | none =>
    match d.projects with
    | [] => (none, d)
    | p :: _ => (some p, { d with activeProjectId := p.id })

/-- The JS handlers mutate the project object returned by `getActiveProject`
in place; since that object is an element of `appData.projects`, this is
replacement of the first list entry carrying the given id. -/
def replaceById : List Project → String → Project → List Project
  | [], _, _ => []
  | p :: ps, i, q => if p.id = i then q :: ps else p :: replaceById ps i q

/-- `project.roundSelections[project.currentRound] || []` (app.js line 306;
the spec's `currentSelections`). -/
def currentSelections (p : Project) : List String :=
  (p.roundSelections p.currentRound).getD []

/-- Candidate-list computation of `router.get('/')` (app.js lines 144-151):
round 1 lists the source directory (the result of
`getImagesFromDir(project.filePath)` is supplied as `fsImages`); round `N > 1`
reads `roundSelections[N-1]`, defaulting to the empty list.  The spec's
`resolveCandidates`. -/
def resolveCandidates (p : Project) (fsImages : List String) : List String :=
  if p.currentRound = 1 then fsImages
  else (p.roundSelections (p.currentRound - 1)).getD []

/-- App.js lines 136-139: `if (req.query.file) project.lastFileName = req.query.file`
(a query value is a string; truthy means non-empty). -/
def storeQueryFile (p : Project) (q : String) : Project :=
  if q ≠ "" then { p with lastFileName := q } else p

/-- App.js lines 154-156: lazily create the current round's selection entry
(`if (!project.roundSelections[project.currentRound]) ... = []`; an empty
array is truthy in JS, so only an absent entry triggers this). -/
def ensureCurrentEntry (p : Project) : Project :=
  if p.roundSelections p.currentRound = none then
    { p with roundSelections := setRound p.roundSelections p.currentRound [] }
  else p

/-- State effect and rendered `fileName` of `router.get('/')` (app.js lines
135-179) on the active project: store `req.query.file` when provided, lazily
create the current round's entry, then auto-pick the first candidate when the
stored file name is empty or is not a candidate (lines 163-169).  `maxRound`
and the other render-only values are omitted: they do not touch state. -/
def getIndex (p : Project) (fsImages : List String) (q : String) :
    Project × String :=
  let p1 := storeQueryFile p q
  let p2 := ensureCurrentEntry p1
  if (p1.lastFileName = "" ∨ p1.lastFileName ∉ resolveCandidates p1 fsImages) ∧
      resolveCandidates p1 fsImages ≠ [] then
    ({ p2 with lastFileName := (resolveCandidates p1 fsImages).headD "" },
      (resolveCandidates p1 fsImages).headD "")
  else if resolveCandidates p1 fsImages = [] then
    (p2, "")
  else
    (p2, p1.lastFileName)

/-- Project-level part of `router.post('/toggleSelection')` (app.js lines
270-279): lazily create the current round's entry, then remove the file name
when present (keeping the relative order of the rest) or append it at the
end.  Lazy creation followed by a push is the same as appending to the
`getD []` view, which is how it is written here. -/
def toggleSelection (p : Project) (f : String) : Project :=
  if f ∈ currentSelections p then
    { p with roundSelections :=
        (setRound p.roundSelections p.currentRound
          ((currentSelections p).filter (fun g => g ≠ f))) }
  else
    { p with roundSelections :=
        (setRound p.roundSelections p.currentRound (currentSelections p ++ [f])) }

/-- Outcome of `router.post('/nextRound')` as reported in its JSON reply. -/
inductive NextResp where
  | ok
  | emptySelection
  | requiresConfirmation
  | noProject
deriving DecidableEq

/-- Project-level part of `router.post('/nextRound')` (app.js lines 302-339):
empty-selection guard (lines 308-310), overwrite confirmation (lines
316-318), clearing of the next round's stale selections when forcing or
overwriting (lines 329-333), then round increment and `lastFileName` reset
(lines 335-336). -/
def nextRound (p : Project) (force : Bool) : NextResp × Project :=
  if currentSelections p = [] then
    (.emptySelection, p)
  else if (p.roundSelections (p.currentRound + 1)).getD [] ≠ [] ∧ force = false then
    (.requiresConfirmation, p)
  else if force = true ∨ (p.roundSelections (p.currentRound + 1)).getD [] ≠ [] then
    (.ok, { p with
      roundSelections := setRound p.roundSelections (p.currentRound + 1) []
      currentRound := p.currentRound + 1
      lastFileName := "" })
  else
    (.ok, { p with currentRound := p.currentRound + 1, lastFileName := "" })

/-- `router.post('/updateSettings')` (app.js lines 199-208). -/
def updateSettingsH (d : AppData) (x fp : String) : AppData :=
  let ga := getActiveProject d
  match ga.1 with
  | none => ga.2
  | some p =>
    { ga.2 with projects :=
        replaceById ga.2.projects p.id { p with xSelected := x, filePath := fp } }

/-- `router.post('/createProject')` (app.js lines 210-225).  The fresh
`crypto.randomUUID()` is supplied as `newId`; `name || '新项目'` and
`filePath || ''` default on an empty (falsy) string. -/
def createProjectH (d : AppData) (newId name fp : String) : AppData :=
  let np : Project :=
    { id := newId
      name := if name = "" then "新项目" else name
      filePath := fp
      xSelected := ""
      currentRound := 1
      roundSelections := fun _ => none
      lastFileName := "" }
  { activeProjectId := newId, projects := d.projects ++ [np] }

/-- `router.post('/switchProject')` (app.js lines 227-234). -/
def switchProjectH (d : AppData) (pid : String) : AppData :=
  if d.projects.any (fun p => p.id = pid) then
    { d with activeProjectId := pid }
  else d

/-- `router.post('/switchRound')` (app.js lines 236-245).  `round` models the
request value: `none` is an absent or falsy value (no mutation), `some n` is a
truthy string on which `parseInt` yields the integer `n` — the code stores
that integer with no bounds check.  (A truthy value on which `parseInt`
yields NaN is outside this integer-valued model.) -/
def switchRoundH (d : AppData) (round : Option Int) : AppData :=
  let ga := getActiveProject d
  match ga.1, round with
  | some p, some n =>
    { ga.2 with projects :=
        replaceById ga.2.projects p.id { p with currentRound := n, lastFileName := "" } }
  | _, _ => ga.2

/-- `router.post('/deleteProject')` (app.js lines 247-259).  The Bool reports
which branch replied: `false` models the guard's early redirect (no state
change), `true` a performed deletion.  The code reads `projects[0].id` from
the filtered list, well defined only when it is non-empty (which holds in
every reachable state, proved below); `headD defaultProject` renders that
access total. -/
def deleteProjectH (d : AppData) (pid : String) : Bool × AppData :=
  if d.projects.length ≤ 1 then (false, d)
  else
    let ps := d.projects.filter (fun p => p.id ≠ pid)
    let act := if d.activeProjectId = pid then (ps.headD defaultProject).id
               else d.activeProjectId
    (true, { activeProjectId := act, projects := ps })

/-- `router.post('/toggleSelection')` at document level (app.js lines
263-282): resolve the active project, reject an absent project or an empty
(falsy) `fileName`, otherwise toggle. -/
def toggleH (d : AppData) (f : String) : Bool × AppData :=
  let ga := getActiveProject d
  match ga.1 with
  | none => (false, ga.2)
  | some p =>
    if f = "" then (false, ga.2)
    else (true, { ga.2 with projects := replaceById ga.2.projects p.id (toggleSelection p f) })

/-- `router.post('/nextRound')` at document level (app.js lines 302-339). -/
def nextRoundH (d : AppData) (force : Bool) : NextResp × AppData :=
  let ga := getActiveProject d
  match ga.1 with
  | none => (.noProject, ga.2)
  | some p =>
    ((nextRound p force).1,
      { ga.2 with projects := replaceById ga.2.projects p.id (nextRound p force).2 })

/-- `router.get('/')` at document level (app.js lines 122-180): resolve the
active project (rendering only, no mutation, when there is none), then apply
the project-level effect of the handler. -/
def indexHandler (d : AppData) (fsImages : List String) (q : String) : AppData :=
  let ga := getActiveProject d
  match ga.1 with
  | none => ga.2
  | some p =>
    { ga.2 with projects := replaceById ga.2.projects p.id (getIndex p fsImages q).1 }

/-- One request handled by the server: every state-mutating route of
app.js, with its request parameters universally quantified.  `create`
carries the guarantee that `crypto.randomUUID()` yields an id not already in
use. -/
inductive Step : AppData → AppData → Prop where
  | index (d : AppData) (fsImages : List String) (q : String) :
      Step d (indexHandler d fsImages q)
  | settings (d : AppData) (x fp : String) : Step d (updateSettingsH d x fp)
  | create (d : AppData) (newId name fp : String)
      (hfresh : ∀ p ∈ d.projects, p.id ≠ newId) :
      Step d (createProjectH d newId name fp)
  | switchProj (d : AppData) (pid : String) : Step d (switchProjectH d pid)
  | switchRnd (d : AppData) (r : Option Int) : Step d (switchRoundH d r)
  | deleteProj (d : AppData) (pid : String) : Step d (deleteProjectH d pid).2
  | toggle (d : AppData) (f : String) : Step d (toggleH d f).2
  | next (d : AppData) (force : Bool) : Step d (nextRoundH d force).2

/-- States reachable by a sequence of requests. -/
abbrev Reachable : AppData → AppData → Prop := Relation.ReflTransGen Step

/-- Like `Step`, but every `switchRound` request value parses to an integer
`≥ 1` (the input domain the spec's §4.3 and §9 describe: "accepts any
positive integer"). -/
inductive StepPos : AppData → AppData → Prop where
  | index (d : AppData) (fsImages : List String) (q : String) :
      StepPos d (indexHandler d fsImages q)
  | settings (d : AppData) (x fp : String) : StepPos d (updateSettingsH d x fp)
  | create (d : AppData) (newId name fp : String)
      (hfresh : ∀ p ∈ d.projects, p.id ≠ newId) :
      StepPos d (createProjectH d newId name fp)
  | switchProj (d : AppData) (pid : String) : StepPos d (switchProjectH d pid)
  | switchRnd (d : AppData) (r : Option Int)
      (hpos : ∀ n : Int, r = some n → 1 ≤ n) : StepPos d (switchRoundH d r)
  | deleteProj (d : AppData) (pid : String) : StepPos d (deleteProjectH d pid).2
  | toggle (d : AppData) (f : String) : StepPos d (toggleH d f).2
  | next (d : AppData) (force : Bool) : StepPos d (nextRoundH d force).2

/-- States reachable when every `switchRound` request is a positive integer. -/
abbrev ReachablePos : AppData → AppData → Prop := Relation.ReflTransGen StepPos

/-- A project sitting at round 1 with selections recorded for rounds 1 and 2;
used to instantiate theorems on concrete inputs. -/
def sampleProject : Project :=
  { id := "p1"
    name := "sample"
    filePath := "dir"
    xSelected := ""
    currentRound := 1
    roundSelections := fun j =>
      if j = 1 then some ["k.png"] else if j = 2 then some ["x.png"] else none
    lastFileName := "" }

/-- A project with no recorded selections at all. -/
def emptyProject : Project :=
  { id := "p2"
    name := "empty"
    filePath := "dir"
    xSelected := ""
    currentRound := 1
    roundSelections := fun _ => none
    lastFileName := "" }

/-- A project sitting at round 2 whose round-1 selections are `["a.png"]`. -/
def roundTwoProject : Project :=
  { id := "p3"
    name := "roundtwo"
    filePath := "dir"
    xSelected := ""
    currentRound := 2
    roundSelections := fun j => if j = 1 then some ["a.png"] else none
    lastFileName := "" }

/-- A document whose `activeProjectId` matches no project. -/
def danglingDoc : AppData :=
  { activeProjectId := "ghost", projects := [sampleProject] }

/-- A document whose `activeProjectId` matches its (only) project. -/
def matchingDoc : AppData :=
  { activeProjectId := "p1", projects := [sampleProject] }

/-- The document obtained from the fresh default document by a `switchRound`
request whose value is the truthy string `"0"` (`parseInt("0") = 0`). -/
def zeroRoundDoc : AppData := switchRoundH initData (some 0)

/-- Every project of the document has `currentRound ≥ 1`. -/
def RoundsPos (d : AppData) : Prop := ∀ p ∈ d.projects, 1 ≤ p.currentRound

/-- The structural document invariant: the project collection is non-empty
and project ids are pairwise distinct. -/
def GoodDoc (d : AppData) : Prop :=
  d.projects ≠ [] ∧ (d.projects.map Project.id).Nodup

/-- C4: on a project whose current round's selection list is empty or absent,
`nextRound` fails with `EmptySelection` for either value of `force` and
performs no mutation: the returned project is the input project, so
`currentRound`, `roundSelections` and `lastFileName` are all unchanged. -/
theorem C4_empty_selection_guard (p : Project) (force : Bool)
    (h : currentSelections p = []) :
    nextRound p force = (NextResp.emptySelection, p) ∧
    ((nextRound p force).2).currentRound = p.currentRound ∧
    ((nextRound p force).2).roundSelections = p.roundSelections ∧
    ((nextRound p force).2).lastFileName = p.lastFileName := by
  have he : nextRound p force = (NextResp.emptySelection, p) := by
    unfold nextRound
    rw [if_pos h]
  exact ⟨he, by rw [he], by rw [he], by rw [he]⟩

theorem C4_witness :
    nextRound emptyProject true = (NextResp.emptySelection, emptyProject) ∧
    nextRound emptyProject false = (NextResp.emptySelection, emptyProject) :=
  ⟨(C4_empty_selection_guard emptyProject true rfl).1,
   (C4_empty_selection_guard emptyProject false rfl).1⟩

/-- C5: at a round `N > 1`, the candidate list is exactly the stored
`roundSelections[N-1]` (empty when absent), and it does not depend on the
filesystem listing at all. -/
theorem C5_candidates_from_previous_round (p : Project) (h : 1 < p.currentRound)
    (fsImages fsImages2 : List String) :
    resolveCandidates p fsImages = (p.roundSelections (p.currentRound - 1)).getD [] ∧
    resolveCandidates p fsImages = resolveCandidates p fsImages2 := by
  have hne : ¬ p.currentRound = 1 := by omega
  constructor
  · unfold resolveCandidates
    rw [if_neg hne]
  · unfold resolveCandidates
    rw [if_neg hne, if_neg hne]

theorem C5_witness :
    resolveCandidates roundTwoProject ["fs.png"] =
      (roundTwoProject.roundSelections (roundTwoProject.currentRound - 1)).getD [] ∧
    resolveCandidates roundTwoProject ["fs.png"] = resolveCandidates roundTwoProject [] :=
  C5_candidates_from_previous_round roundTwoProject (by decide) ["fs.png"] []

/-- C7: a successful `nextRound` changes, among the entries of
`roundSelections`, at most the one for round `currentRound + 1`: every other
round's entry (the current round's and all deeper rounds' included) is
unchanged. -/
theorem C7_advance_frame (p : Project) (force : Bool) (p' : Project)
    (h : nextRound p force = (NextResp.ok, p')) :
    ∀ k : Int, k ≠ p.currentRound + 1 → p'.roundSelections k = p.roundSelections k := by
  intro k hk
  unfold nextRound at h
  by_cases h1 : currentSelections p = []
  · rw [if_pos h1] at h
    simp at h
  · rw [if_neg h1] at h
    by_cases h2 : (p.roundSelections (p.currentRound + 1)).getD [] ≠ [] ∧ force = false
    · rw [if_pos h2] at h
      simp at h
    · rw [if_neg h2] at h
      by_cases h3 : force = true ∨ (p.roundSelections (p.currentRound + 1)).getD [] ≠ []
      · rw [if_pos h3] at h
        have hp : p' = { p with
            roundSelections := setRound p.roundSelections (p.currentRound + 1) []
            currentRound := p.currentRound + 1
            lastFileName := "" } := by
          have := congrArg Prod.snd h
          exact this.symm
        rw [hp]
        show setRound p.roundSelections (p.currentRound + 1) [] k = p.roundSelections k
        unfold setRound
        rw [if_neg hk]
      · rw [if_neg h3] at h
        have hp : p' = { p with currentRound := p.currentRound + 1, lastFileName := "" } := by
          have := congrArg Prod.snd h
          exact this.symm
        rw [hp]

theorem C7_witness :
    ((nextRound sampleProject true).2).roundSelections 5 =
      sampleProject.roundSelections 5 ∧
    ((nextRound sampleProject true).2).roundSelections 1 =
      sampleProject.roundSelections 1 :=
  ⟨C7_advance_frame sampleProject true (nextRound sampleProject true).2 rfl 5 (by decide),
   C7_advance_frame sampleProject true (nextRound sampleProject true).2 rfl 1 (by decide)⟩

/-- C10: when the current selections are non-empty, `nextRound` with
`force = true` succeeds and afterwards the entry for the newly entered round
(`currentRound` of the result) exists and is the empty sequence — also when
no entry for that round existed beforehand. -/
theorem C10_new_round_entry_empty (p : Project)
    (h : currentSelections p ≠ []) :
    (nextRound p true).1 = NextResp.ok ∧
    ((nextRound p true).2).roundSelections (((nextRound p true).2).currentRound) =
      some [] := by
  have hstep : nextRound p true = (NextResp.ok, { p with
      roundSelections := setRound p.roundSelections (p.currentRound + 1) []
      currentRound := p.currentRound + 1
      lastFileName := "" }) := by
    unfold nextRound
    rw [if_neg h, if_neg (by simp), if_pos (Or.inl rfl)]
  rw [hstep]
  refine ⟨rfl, ?_⟩
  show setRound p.roundSelections (p.currentRound + 1) [] (p.currentRound + 1) = some []
  unfold setRound
  rw [if_pos rfl]

theorem C10_witness :
    (nextRound sampleProject true).1 = NextResp.ok ∧
    ((nextRound sampleProject true).2).roundSelections
      (((nextRound sampleProject true).2).currentRound) = some [] :=
  C10_new_round_entry_empty sampleProject (by decide)

/-- C3: at round `N` with a non-empty entry for round `N+1` and non-empty
current selections, `nextRound` with `force = false` fails with
`RequiresConfirmation` and returns the project unchanged (so
`roundSelections[N+1]` and all other state keep their values); the follow-up
`nextRound` with `force = true` succeeds, clears `roundSelections[N+1]` to
the empty sequence and sets `currentRound` to `N+1`. -/
theorem C3_overwrite_confirmation (p : Project) (l : List String)
    (hcur : currentSelections p ≠ [])
    (hnext : p.roundSelections (p.currentRound + 1) = some l) (hl : l ≠ []) :
    nextRound p false = (NextResp.requiresConfirmation, p) ∧
    (nextRound p true).1 = NextResp.ok ∧
    ((nextRound p true).2).roundSelections (p.currentRound + 1) = some [] ∧
    ((nextRound p true).2).currentRound = p.currentRound + 1 := by
  have hne : (p.roundSelections (p.currentRound + 1)).getD [] ≠ [] := by
    rw [hnext]
    simpa using hl
  refine ⟨?_, ?_, ?_, ?_⟩
  · unfold nextRound
    rw [if_neg hcur, if_pos ⟨hne, rfl⟩]
  · unfold nextRound
    rw [if_neg hcur, if_neg (by simp), if_pos (Or.inl rfl)]
  · unfold nextRound
    rw [if_neg hcur, if_neg (by simp), if_pos (Or.inl rfl)]
    show setRound p.roundSelections (p.currentRound + 1) [] (p.currentRound + 1) = some []
    unfold setRound
    rw [if_pos rfl]
  · unfold nextRound
    rw [if_neg hcur, if_neg (by simp), if_pos (Or.inl rfl)]

/-- Auxiliary equation: toggling a currently selected file removes it. -/
theorem toggleSelection_of_mem {p : Project} {f : String}
    (h : f ∈ currentSelections p) :
    toggleSelection p f = { p with roundSelections :=
      (setRound p.roundSelections p.currentRound
        ((currentSelections p).filter (fun g => g ≠ f))) } := by
  unfold toggleSelection
  rw [if_pos h]

/-- Auxiliary equation: toggling an unselected file appends it at the end. -/
theorem toggleSelection_of_not_mem {p : Project} {f : String}
    (h : f ∉ currentSelections p) :
    toggleSelection p f = { p with roundSelections :=
      (setRound p.roundSelections p.currentRound (currentSelections p ++ [f])) } := by
  unfold toggleSelection
  rw [if_neg h]

/-- Auxiliary: reading back a just-written round entry. -/
theorem currentSelections_write (p : Project) (l : List String) :
    currentSelections { p with roundSelections :=
      (setRound p.roundSelections p.currentRound l) } = l := by
  show (setRound p.roundSelections p.currentRound l p.currentRound).getD [] = l
  unfold setRound
  rw [if_pos rfl]
  rfl

/-- C6: toggling the same non-empty file name twice restores its original
membership, keeps `currentRound`, and leaves the current round's selection
list unchanged in content and in the relative order of its other elements
(the list with `f` filtered out is identical before and after). -/
theorem C6_toggle_twice (p : Project) (f : String) (_hf : f ≠ "") :
    (toggleSelection (toggleSelection p f) f).currentRound = p.currentRound ∧
    (f ∈ currentSelections (toggleSelection (toggleSelection p f) f) ↔
      f ∈ currentSelections p) ∧
    (currentSelections (toggleSelection (toggleSelection p f) f)).filter
        (fun g => g ≠ f) =
      (currentSelections p).filter (fun g => g ≠ f) := by
  by_cases hm : f ∈ currentSelections p
  · have h1 := toggleSelection_of_mem hm
    have hsel1 : currentSelections (toggleSelection p f) =
        (currentSelections p).filter (fun g => g ≠ f) := by
      rw [h1, currentSelections_write]
    have hm2 : f ∉ currentSelections (toggleSelection p f) := by
      rw [hsel1]
      simp
    have h2 := toggleSelection_of_not_mem hm2
    have hsel2 : currentSelections (toggleSelection (toggleSelection p f) f) =
        (currentSelections p).filter (fun g => g ≠ f) ++ [f] := by
      rw [h2, currentSelections_write, hsel1]
    refine ⟨by rw [h2, h1], ?_, ?_⟩
    · rw [hsel2]
      simp [hm]
    · rw [hsel2]
      simp [List.filter_append, List.filter_filter]
  · have h1 := toggleSelection_of_not_mem hm
    have hsel1 : currentSelections (toggleSelection p f) =
        currentSelections p ++ [f] := by
      rw [h1, currentSelections_write]
    have hm2 : f ∈ currentSelections (toggleSelection p f) := by
      rw [hsel1]
      simp
    have h2 := toggleSelection_of_mem hm2
    have hsel2 : currentSelections (toggleSelection (toggleSelection p f) f) =
        (currentSelections p ++ [f]).filter (fun g => g ≠ f) := by
      rw [h2, currentSelections_write, hsel1]
    refine ⟨by rw [h2, h1], ?_, ?_⟩
    · rw [hsel2]
      simp [hm]
    · rw [hsel2]
      simp [List.filter_append, List.filter_filter]

theorem C6_witness :
    (toggleSelection (toggleSelection sampleProject "k.png") "k.png").currentRound =
      sampleProject.currentRound ∧
    ("k.png" ∈ currentSelections
        (toggleSelection (toggleSelection sampleProject "k.png") "k.png") ↔
      "k.png" ∈ currentSelections sampleProject) ∧
    (currentSelections
        (toggleSelection (toggleSelection sampleProject "k.png") "k.png")).filter
        (fun g => g ≠ "k.png") =
      (currentSelections sampleProject).filter (fun g => g ≠ "k.png") :=
  C6_toggle_twice sampleProject "k.png" (by decide)

/-- Auxiliary: `resolveCandidates` reads only `currentRound` and
`roundSelections`, so storing a viewed file name does not change it. -/
theorem resolveCandidates_store (p : Project) (q : String) (fs : List String) :
    resolveCandidates (storeQueryFile p q) fs = resolveCandidates p fs := by
  unfold storeQueryFile
  split <;> rfl

/-- Auxiliary: lazily creating the current round's entry does not touch
`lastFileName`. -/
theorem ensureCurrentEntry_lastFileName (p : Project) :
    (ensureCurrentEntry p).lastFileName = p.lastFileName := by
  unfold ensureCurrentEntry
  split <;> rfl

/-- C1 counterexample: on a project at round 2 whose candidates are
`["a.png"]`, requesting `file=zzz.png` (a non-empty name that is not a
candidate) leaves the GET handler with `lastFileName = "a.png"` — the
auto-pick at app.js lines 163-166 overwrites the requested name, so the
stored value does not equal the requested one. -/
theorem C1_counterexample :
    ((getIndex roundTwoProject [] "zzz.png").1).lastFileName = "a.png" ∧
    "zzz.png" ≠ "" ∧ "a.png" ≠ "zzz.png" := by
  refine ⟨by decide, by decide, by decide⟩

/-- C1 (amended): a non-empty requested file name is stored into
`lastFileName` and still equals it at the end of the GET handler precisely
when it occurs in the candidate list or the candidate list is empty;
otherwise the handler replaces it with the first candidate. -/
theorem C1_amended_viewedFile (p : Project) (fs : List String) (q : String)
    (hq : q ≠ "") :
    ((q ∈ resolveCandidates p fs ∨ resolveCandidates p fs = []) →
      ((getIndex p fs q).1).lastFileName = q) ∧
    (q ∉ resolveCandidates p fs → resolveCandidates p fs ≠ [] →
      ((getIndex p fs q).1).lastFileName = (resolveCandidates p fs).headD "") := by
  have hstore : storeQueryFile p q = { p with lastFileName := q } := by
    unfold storeQueryFile
    rw [if_pos hq]
  have hgi : getIndex p fs q =
      (if (q = "" ∨ q ∉ resolveCandidates p fs) ∧ resolveCandidates p fs ≠ [] then
        ({ ensureCurrentEntry { p with lastFileName := q } with
            lastFileName := (resolveCandidates p fs).headD "" },
          (resolveCandidates p fs).headD "")
      else if resolveCandidates p fs = [] then
        (ensureCurrentEntry { p with lastFileName := q }, "")
      else
        (ensureCurrentEntry { p with lastFileName := q }, q)) := by
    unfold getIndex
    rw [hstore]
    rfl
  constructor
  · intro hor
    rcases hor with hmem | hempty
    · have hc1 : ¬ ((q = "" ∨ q ∉ resolveCandidates p fs) ∧
          resolveCandidates p fs ≠ []) := by
        intro hand
        rcases hand.1 with h | h
        · exact hq h
        · exact h hmem
      have hc2 : resolveCandidates p fs ≠ [] := List.ne_nil_of_mem hmem
      rw [hgi, if_neg hc1, if_neg hc2]
      show (ensureCurrentEntry { p with lastFileName := q }).lastFileName = q
      rw [ensureCurrentEntry_lastFileName]
    · have hc1 : ¬ ((q = "" ∨ q ∉ resolveCandidates p fs) ∧
          resolveCandidates p fs ≠ []) := by
        intro hand
        exact hand.2 hempty
      rw [hgi, if_neg hc1, if_pos hempty]
      show (ensureCurrentEntry { p with lastFileName := q }).lastFileName = q
      rw [ensureCurrentEntry_lastFileName]
  · intro hnm hne
    rw [hgi, if_pos ⟨Or.inr hnm, hne⟩]

theorem C1_amended_witness :
    ((getIndex roundTwoProject [] "a.png").1).lastFileName = "a.png" ∧
    ((getIndex roundTwoProject [] "zzz.png").1).lastFileName =
      (resolveCandidates roundTwoProject []).headD "" :=
  ⟨(C1_amended_viewedFile roundTwoProject [] "a.png" (by decide)).1
      (Or.inl (by decide)),
   (C1_amended_viewedFile roundTwoProject [] "zzz.png" (by decide)).2
      (by decide) (by decide)⟩

theorem C3_witness :
    nextRound sampleProject false = (NextResp.requiresConfirmation, sampleProject) ∧
    (nextRound sampleProject true).1 = NextResp.ok ∧
    ((nextRound sampleProject true).2).roundSelections
      (sampleProject.currentRound + 1) = some [] ∧
    ((nextRound sampleProject true).2).currentRound =
      sampleProject.currentRound + 1 :=
  C3_overwrite_confirmation sampleProject ["x.png"] (by decide) rfl (by decide)

/-- Auxiliary: resolving the active project never changes the project list. -/
theorem getActiveProject_snd_projects (d : AppData) :
    ((getActiveProject d).2).projects = d.projects := by
  unfold getActiveProject
  split
  · rfl
  · split <;> rfl

/-- Auxiliary: a resolved active project is an element of the project list. -/
theorem getActiveProject_fst_mem {d : AppData} {p : Project}
    (h : (getActiveProject d).1 = some p) : p ∈ d.projects := by
  unfold getActiveProject at h
  split at h
  · rename_i q hq
    simp only at h
    injection h with h
    rw [← h]
    exact List.mem_of_find?_eq_some hq
  · split at h
    · simp at h
    · rename_i q rest hcons
      simp only at h
      injection h with h
      rw [← h, hcons]
      exact List.mem_cons_self _ _

/-- Auxiliary: an element of `replaceById ps i q` is an element of `ps` or is
`q` itself. -/
theorem mem_replaceById {ps : List Project} {i : String} {q r : Project}
    (h : r ∈ replaceById ps i q) : r ∈ ps ∨ r = q := by
  induction ps with
  | nil => simp [replaceById] at h
  | cons a as ih =>
    unfold replaceById at h
    split at h
    · rcases List.mem_cons.mp h with h1 | h1
      · right
        exact h1
      · left
        exact List.mem_cons_of_mem _ h1
    · rcases List.mem_cons.mp h with h1 | h1
      · left
        rw [h1]
        exact List.mem_cons_self _ _
      · rcases ih h1 with h2 | h2
        · left
          exact List.mem_cons_of_mem _ h2
        · right
          exact h2

/-- Auxiliary: replacing a project by one carrying the same id leaves the
sequence of ids unchanged. -/
theorem map_id_replaceById {ps : List Project} {i : String} {q : Project}
    (hq : q.id = i) :
    (replaceById ps i q).map Project.id = ps.map Project.id := by
  induction ps with
  | nil => rfl
  | cons a as ih =>
    unfold replaceById
    split
    · rename_i ha
      simp [hq, ha]
    · simp [ih]

theorem toggleSelection_currentRound (p : Project) (f : String) :
    (toggleSelection p f).currentRound = p.currentRound := by
  unfold toggleSelection
  split <;> rfl

theorem toggleSelection_id (p : Project) (f : String) :
    (toggleSelection p f).id = p.id := by
  unfold toggleSelection
  split <;> rfl

theorem nextRound_currentRound (p : Project) (b : Bool) :
    ((nextRound p b).2).currentRound = p.currentRound ∨
    ((nextRound p b).2).currentRound = p.currentRound + 1 := by
  unfold nextRound
  split_ifs <;> simp

theorem nextRound_id (p : Project) (b : Bool) :
    ((nextRound p b).2).id = p.id := by
  unfold nextRound
  split_ifs <;> rfl

theorem getIndex_currentRound (p : Project) (fs : List String) (q : String) :
    ((getIndex p fs q).1).currentRound = p.currentRound := by
  unfold getIndex storeQueryFile ensureCurrentEntry
  dsimp only
  split_ifs <;> rfl

theorem getIndex_id (p : Project) (fs : List String) (q : String) :
    ((getIndex p fs q).1).id = p.id := by
  unfold getIndex storeQueryFile ensureCurrentEntry
  dsimp only
  split_ifs <;> rfl

theorem roundsPos_ga {d : AppData} (hd : RoundsPos d) :
    RoundsPos (getActiveProject d).2 := by
  intro r hr
  rw [getActiveProject_snd_projects] at hr
  exact hd r hr

theorem roundsPos_replace {d : AppData} {p q : Project}
    (hd : RoundsPos d) (hq : 1 ≤ q.currentRound) :
    ∀ r ∈ replaceById ((getActiveProject d).2).projects p.id q,
      1 ≤ r.currentRound := by
  intro r hr
  rcases mem_replaceById hr with h | h
  · rw [getActiveProject_snd_projects] at h
    exact hd r h
  · rw [h]
    exact hq

/-- One request preserves positivity of every project's `currentRound`,
provided `switchRound` requests are positive. -/
theorem roundsPos_step {d d' : AppData} (h : StepPos d d') (hd : RoundsPos d) :
    RoundsPos d' := by
  cases h with
  | index fs q =>
    unfold indexHandler
    dsimp only
    rcases hpo : (getActiveProject d).1 with _ | p
    · exact roundsPos_ga hd
    · exact roundsPos_replace hd
        (by rw [getIndex_currentRound]; exact hd p (getActiveProject_fst_mem hpo))
  | settings x fp =>
    unfold updateSettingsH
    dsimp only
    rcases hpo : (getActiveProject d).1 with _ | p
    · exact roundsPos_ga hd
    · exact roundsPos_replace hd (hd p (getActiveProject_fst_mem hpo))
  | create newId name fp hfresh =>
    unfold createProjectH
    dsimp only
    intro r hr
    rcases List.mem_append.mp hr with h | h
    · exact hd r h
    · rw [List.mem_singleton.mp h]
  | switchProj pid =>
    unfold switchProjectH
    split
    · exact fun r hr => hd r hr
    · exact hd
  | switchRnd r hpos =>
    unfold switchRoundH
    dsimp only
    rcases hpo : (getActiveProject d).1 with _ | p <;> cases r
    · exact roundsPos_ga hd
    · exact roundsPos_ga hd
    · exact roundsPos_ga hd
    · rename_i n
      exact roundsPos_replace hd (hpos n rfl)
  | deleteProj pid =>
    unfold deleteProjectH
    split
    · exact hd
    · dsimp only
      intro r hr
      exact hd r (List.mem_filter.mp hr).1
  | toggle f =>
    unfold toggleH
    dsimp only
    rcases hpo : (getActiveProject d).1 with _ | p
    · exact roundsPos_ga hd
    · dsimp only
      split
      · exact roundsPos_ga hd
      · exact roundsPos_replace hd
          (by rw [toggleSelection_currentRound]; exact hd p (getActiveProject_fst_mem hpo))
  | next force =>
    unfold nextRoundH
    dsimp only
    rcases hpo : (getActiveProject d).1 with _ | p
    · exact roundsPos_ga hd
    · refine roundsPos_replace hd ?_
      have hp := hd p (getActiveProject_fst_mem hpo)
      rcases nextRound_currentRound p force with h | h <;> rw [h] <;> omega

theorem goodDoc_ga {d : AppData} (hd : GoodDoc d) :
    GoodDoc (getActiveProject d).2 := by
  unfold GoodDoc
  rw [getActiveProject_snd_projects]
  exact hd

theorem goodDoc_replace {d : AppData} {p q : Project}
    (hd : GoodDoc d) (hq : q.id = p.id) :
    replaceById ((getActiveProject d).2).projects p.id q ≠ [] ∧
    ((replaceById ((getActiveProject d).2).projects p.id q).map Project.id).Nodup := by
  have hmap : (replaceById ((getActiveProject d).2).projects p.id q).map Project.id =
      d.projects.map Project.id := by
    rw [map_id_replaceById hq, getActiveProject_snd_projects]
  constructor
  · intro hnil
    have hmn : (replaceById ((getActiveProject d).2).projects p.id q).map Project.id
        = [] := by
      rw [hnil]
      rfl
    rw [hmap] at hmn
    exact hd.1 (List.map_eq_nil_iff.mp hmn)
  · rw [hmap]
    exact hd.2

/-- Auxiliary: with pairwise-distinct ids and at least two projects, deleting
by id leaves a non-empty list. -/
theorem filter_id_ne_nil {ps : List Project} (hn : (ps.map Project.id).Nodup)
    (hl : 2 ≤ ps.length) (pid : String) :
    ps.filter (fun p => p.id ≠ pid) ≠ [] := by
  rcases ps with _ | ⟨a, ps1⟩
  · simp at hl
  rcases ps1 with _ | ⟨b, ps2⟩
  · simp at hl
  intro hnil
  rw [List.filter_eq_nil_iff] at hnil
  have ha := hnil a (by simp)
  have hb := hnil b (by simp)
  simp at ha hb
  rw [List.map_cons, List.map_cons, List.nodup_cons] at hn
  exact hn.1 (by simp [ha, hb])

/-- One request preserves the structural document invariant. -/
theorem goodDoc_step {d d' : AppData} (h : Step d d') (hd : GoodDoc d) :
    GoodDoc d' := by
  cases h with
  | index fs q =>
    unfold indexHandler
    dsimp only
    rcases hpo : (getActiveProject d).1 with _ | p
    · exact goodDoc_ga hd
    · exact goodDoc_replace hd (getIndex_id p fs q)
  | settings x fp =>
    unfold updateSettingsH
    dsimp only
    rcases hpo : (getActiveProject d).1 with _ | p
    · exact goodDoc_ga hd
    · exact goodDoc_replace hd rfl
  | create newId name fp hfresh =>
    unfold createProjectH
    dsimp only
    constructor
    · simp
    · show ((d.projects ++ [_]).map Project.id).Nodup
      rw [List.map_append]
      refine List.Nodup.append hd.2 (List.nodup_singleton _) ?_
      intro a ha hb
      simp only [List.map_cons, List.map_nil, List.mem_singleton] at hb
      rcases List.mem_map.mp ha with ⟨r, hr, hrid⟩
      exact hfresh r hr (hrid.trans hb)
  | switchProj pid =>
    unfold switchProjectH
    split
    · exact hd
    · exact hd
  | switchRnd r =>
    unfold switchRoundH
    dsimp only
    rcases hpo : (getActiveProject d).1 with _ | p <;> cases r
    · exact goodDoc_ga hd
    · exact goodDoc_ga hd
    · exact goodDoc_ga hd
    · exact goodDoc_replace hd rfl
  | deleteProj pid =>
    unfold deleteProjectH
    split
    · exact hd
    · rename_i hlen
      dsimp only
      constructor
      · exact filter_id_ne_nil hd.2 (by omega) pid
      · show ((d.projects.filter (fun p => p.id ≠ pid)).map Project.id).Nodup
        exact List.Nodup.sublist
          ((List.filter_sublist d.projects).map Project.id) hd.2
  | toggle f =>
    unfold toggleH
    dsimp only
    rcases hpo : (getActiveProject d).1 with _ | p
    · exact goodDoc_ga hd
    · dsimp only
      split
      · exact goodDoc_ga hd
      · exact goodDoc_replace hd (toggleSelection_id p f)
  | next force =>
    unfold nextRoundH
    dsimp only
    rcases hpo : (getActiveProject d).1 with _ | p
    · exact goodDoc_ga hd
    · exact goodDoc_replace hd (nextRound_id p force)

/-- C2 counterexample: from the fresh default document, a single `switchRound`
request whose truthy value parses to 0 (for example the string `"0"`) is a
core-operation step, and it yields a reachable document whose project has
`currentRound = 0 < 1`: the code stores `parseInt(round)` with no lower-bound
check, so the invariant `currentRound ≥ 1` does not survive arbitrary request
values. -/
theorem C2_counterexample :
    Reachable initData zeroRoundDoc ∧
    { defaultProject with currentRound := (0 : Int), lastFileName := "" } ∈
      zeroRoundDoc.projects ∧
    ({ defaultProject with currentRound := (0 : Int), lastFileName := "" } :
      Project).currentRound < 1 := by
  refine ⟨Relation.ReflTransGen.single (Step.switchRnd initData (some 0)), ?_, by decide⟩
  have hpr : zeroRoundDoc.projects =
      [{ defaultProject with currentRound := (0 : Int), lastFileName := "" }] := rfl
  rw [hpr]
  exact List.mem_cons_self _ _

/-- C2 (amended): starting from the fresh default document, as long as every
`switchRound` request value parses to an integer `≥ 1` (the spec's "any
positive integer"), every project of every reachable document has
`currentRound ≥ 1`.  The unrestricted claim fails: see `C2_counterexample`. -/
theorem C2_amended_round_positive (d : AppData) (h : ReachablePos initData d) :
    ∀ p ∈ d.projects, 1 ≤ p.currentRound := by
  induction h with
  | refl =>
    intro p hp
    rw [List.mem_singleton.mp hp]
    decide
  | tail hab hbc ih => exact roundsPos_step hbc ih

theorem C2_amended_witness : 1 ≤ defaultProject.currentRound :=
  C2_amended_round_positive initData Relation.ReflTransGen.refl defaultProject
    (List.mem_cons_self _ _)

/-- C8: in every reachable state the projects collection is non-empty, and
the delete handler on a document with exactly one project takes the guard
branch: it reports failure and leaves the document — in particular the
projects collection — unchanged.  (All the other operations are steps of
`Reachable`, so the invariant shows they preserve non-emptiness.) -/
theorem C8_projects_nonempty :
    (∀ d, Reachable initData d → d.projects ≠ []) ∧
    (∀ d pid, d.projects.length = 1 → deleteProjectH d pid = (false, d)) := by
  constructor
  · intro d h
    have hg : GoodDoc d := by
      induction h with
      | refl => exact ⟨by simp [initData], by decide⟩
      | tail hab hbc ih => exact goodDoc_step hbc ih
    exact hg.1
  · intro d pid hlen
    unfold deleteProjectH
    rw [if_pos (by omega)]

theorem C8_witness :
    initData.projects ≠ [] ∧
    deleteProjectH initData "default" = (false, initData) :=
  ⟨C8_projects_nonempty.1 initData Relation.ReflTransGen.refl,
   C8_projects_nonempty.2 initData "default" rfl⟩

/-- C9: when `activeProjectId` matches no project's id and the collection is
non-empty, `getActiveProject` returns the first project and repoints
`activeProjectId` at its id; when the id does match a project (the lookup
succeeds), that project is returned and the document is unchanged. -/
theorem C9_getActive_selfHealing (d : AppData) :
    ((∀ q ∈ d.projects, q.id ≠ d.activeProjectId) →
      ∀ p rest, d.projects = p :: rest →
        getActiveProject d = (some p, { d with activeProjectId := p.id })) ∧
    (∀ p, d.projects.find? (fun q => q.id = d.activeProjectId) = some p →
      getActiveProject d = (some p, d)) := by
  constructor
  · intro hno p rest hl
    have hf : d.projects.find? (fun q => q.id = d.activeProjectId) = none := by
      rw [List.find?_eq_none]
      intro q hq
      simpa using hno q hq
    unfold getActiveProject
    rw [hf, hl]
  · intro p hf
    unfold getActiveProject
    rw [hf]

theorem C9_witness :
    getActiveProject danglingDoc =
      (some sampleProject, { danglingDoc with activeProjectId := sampleProject.id }) ∧
    getActiveProject matchingDoc = (some sampleProject, matchingDoc) :=
  ⟨(C9_getActive_selfHealing danglingDoc).1 (by decide) sampleProject [] rfl,
   (C9_getActive_selfHealing matchingDoc).2 sampleProject rfl⟩

end PicturePick
